import Mathlib

/-!
# Verification of the ndt7-clients repository against its specification

Shallow embedding of the four source files of m-lab/ndt7-clients:

* `sink` — the Go `sink.Writer` pipeline stage (sink of Result Envelopes);
* `client` — the Go minimal ndt7 `Client` (dial, Download, Upload);
* `mainpkg` — the Go command-line front end (`runSubtest`, `realmain`);
* `libndt7` — the browser measurement library (`measure` in libndt7.js).

Go channels become Lean lists consumed in order; goroutine-local state
becomes explicit state passing; machine wall-clock times are naturals
(milliseconds); Go `error` values become `Option GoErr` with `none`
standing for `nil`.
-/

namespace sink

/-- A Go error value; `Option GoErr` models a possibly-nil `error`. -/
abbrev GoErr := Nat

/-- An opaque measurement payload (a byte slice in the Go source). -/
abbrev Bytes := List Nat

/-- The gorilla/websocket constant `websocket.TextMessage`. -/
def TextMessage : Nat := 1

/-- One item of the input channel of `sink.Writer`: the Go struct
`MeasureResult` with fields `Err` (nil or an error) and `Measurement`
(the payload bytes). -/
structure MeasureResult where
  Err : Option GoErr
  Measurement : Bytes
deriving DecidableEq, Repr

/-- The write path of the websocket connection, as `sink.Writer` sees it:
`writeErr k` is the error returned by the k-th `conn.WriteMessage` call
of this run (`none` means the write succeeded). -/
structure Conn where
  writeErr : Nat → Option GoErr

/-- A record of one attempted `conn.WriteMessage` call: the message type
passed and the payload passed. -/
abbrev WriteRec := Nat × Bytes

/-- The `for mr := range input` loop of `sink.Writer` (part_000 lines
19-30), with `k` the number of `WriteMessage` calls made so far.  Returns
the items sent on the output channel, the `WriteMessage` calls made, and
the input items the loop left unread when it returned (which the deferred
drain loop then consumes). -/
def WriterLoop (conn : Conn) (k : Nat) :
    List MeasureResult → List GoErr × List WriteRec × List MeasureResult
  | [] => ([], [], [])
  | mr :: rest =>
    match mr.Err with
    | some e => ([e], [], rest)
    | none =>
      match conn.writeErr k with
      | some e => ([e], [(TextMessage, mr.Measurement)], rest)
      | none =>
        let r := WriterLoop conn (k + 1) rest
        (r.1, (TextMessage, mr.Measurement) :: r.2.1, r.2.2)

/-- Everything observable about one run of `sink.Writer`: the items that
appeared on the output channel, the `WriteMessage` calls made, the input
items consumed by the deferred drain loop (part_000 lines 13-17), and
whether the output channel was closed (the deferred `close(output)`). -/
structure WriterResult where
  output : List GoErr
  writes : List WriteRec
  drained : List MeasureResult
  outputClosed : Bool
deriving DecidableEq, Repr

/-- `sink.Writer` (part_000 lines 8-33): run the main loop from write
index 0, then drain whatever input remains and close the output channel. -/
def Writer (conn : Conn) (input : List MeasureResult) : WriterResult :=
  let r := WriterLoop conn 0 input
  { output := r.1, writes := r.2.1, drained := r.2.2, outputClosed := true }

/-- Helper: the loop on input `pre ++ errEnvelope :: post`, where `pre`
is all payloads and every write in `pre` succeeds, outputs exactly the
envelope error, writes exactly the payloads of `pre`, and leaves exactly
`post` for the drain. -/
theorem WriterLoop_on_error (conn : Conn) (e : GoErr) (m : Bytes) :
    ∀ (pre : List MeasureResult) (k : Nat) (post : List MeasureResult),
    (∀ mr ∈ pre, mr.Err = none) →
    (∀ j, j < pre.length → conn.writeErr (k + j) = none) →
    WriterLoop conn k (pre ++ { Err := some e, Measurement := m } :: post)
      = ([e], pre.map (fun mr => (TextMessage, mr.Measurement)), post) := by
  intro pre
  induction pre with
  | nil =>
    intro k post _ _
    simp [WriterLoop]
  | cons mr rest ih =>
    intro k post hpre hw
    have hmr : mr.Err = none := hpre mr (List.mem_cons_self mr rest)
    have hw0 : conn.writeErr k = none := by
      have := hw 0 (by simp)
      simpa using this
    have hrest : ∀ x ∈ rest, x.Err = none := fun x hx => hpre x (List.mem_cons_of_mem mr hx)
    have hwrest : ∀ j, j < rest.length → conn.writeErr (k + 1 + j) = none := by
      intro j hj
      have := hw (j + 1) (by simpa using Nat.succ_lt_succ hj)
      simpa [Nat.add_comm, Nat.add_assoc, Nat.add_left_comm] using this
    simp [WriterLoop, hmr, hw0, ih (k + 1) post hrest hwrest]

/-- C1: when `sink.Writer` encounters the first envelope whose error
field is set (all earlier envelopes carry payloads and their writes
succeed), it forwards exactly that error as the sole output item,
performs no connection write beyond the writes of the earlier payloads,
and the drain loop consumes every remaining envelope of the input. -/
theorem writer_first_error_sole_output_and_drain
    (conn : Conn) (pre post : List MeasureResult) (e : GoErr) (m : Bytes)
    (hpre : ∀ mr ∈ pre, mr.Err = none)
    (hw : ∀ j, j < pre.length → conn.writeErr j = none) :
    (Writer conn (pre ++ { Err := some e, Measurement := m } :: post)).output = [e] ∧
    (Writer conn (pre ++ { Err := some e, Measurement := m } :: post)).writes
      = pre.map (fun mr => (TextMessage, mr.Measurement)) ∧
    (Writer conn (pre ++ { Err := some e, Measurement := m } :: post)).drained = post := by
  have h := WriterLoop_on_error conn e m pre 0 post hpre (by simpa using hw)
  simp [Writer, h]

/-- C1 witness: a concrete run [payload, payload, error, payload]
(Scenario B of the spec): the two payloads are written, the error is the
sole output, the trailing payload is drained. -/
theorem writer_first_error_sole_output_and_drain_witness :
    (∀ mr ∈ [MeasureResult.mk none [10], MeasureResult.mk none [20]], mr.Err = none) ∧
    (Writer { writeErr := fun _ => none }
        ([MeasureResult.mk none [10], MeasureResult.mk none [20]] ++
          { Err := some 7, Measurement := [] } :: [MeasureResult.mk none [30]])).output = [7] ∧
    (Writer { writeErr := fun _ => none }
        ([MeasureResult.mk none [10], MeasureResult.mk none [20]] ++
          { Err := some 7, Measurement := [] } :: [MeasureResult.mk none [30]])).writes
      = [(TextMessage, [10]), (TextMessage, [20])] ∧
    (Writer { writeErr := fun _ => none }
        ([MeasureResult.mk none [10], MeasureResult.mk none [20]] ++
          { Err := some 7, Measurement := [] } :: [MeasureResult.mk none [30]])).drained
      = [MeasureResult.mk none [30]] := by
  refine ⟨by decide, ?_⟩
  have h := writer_first_error_sole_output_and_drain
    { writeErr := fun _ => none }
    [MeasureResult.mk none [10], MeasureResult.mk none [20]]
    [MeasureResult.mk none [30]] 7 []
    (by decide) (fun j _ => rfl)
  simpa using h

/-- Helper: the loop on input `pre ++ payloadEnvelope :: post`, where
`pre` is all payloads and every write in `pre` succeeds, attempts the
write of the payload as the next `WriteMessage` call; on write failure
the write error is the sole output and `post` is left to the drain, on
success the loop continues on `post`. -/
theorem WriterLoop_on_payload (conn : Conn) (m : Bytes) :
    ∀ (pre : List MeasureResult) (k : Nat) (post : List MeasureResult),
    (∀ mr ∈ pre, mr.Err = none) →
    (∀ j, j < pre.length → conn.writeErr (k + j) = none) →
    WriterLoop conn k (pre ++ { Err := none, Measurement := m } :: post)
      = match conn.writeErr (k + pre.length) with
        | some e =>
          ([e], pre.map (fun mr => (TextMessage, mr.Measurement)) ++ [(TextMessage, m)], post)
        | none =>
          let r := WriterLoop conn (k + pre.length + 1) post
          (r.1, pre.map (fun mr => (TextMessage, mr.Measurement))
                  ++ (TextMessage, m) :: r.2.1, r.2.2) := by
  intro pre
  induction pre with
  | nil =>
    intro k post _ _
    cases h : conn.writeErr (k + 0) with
    | none => simp at h; simp [WriterLoop, h]
    | some e => simp at h; simp [WriterLoop, h]
  | cons mr rest ih =>
    intro k post hpre hw
    have hmr : mr.Err = none := hpre mr (List.mem_cons_self mr rest)
    have hw0 : conn.writeErr k = none := by
      have := hw 0 (by simp)
      simpa using this
    have hrest : ∀ x ∈ rest, x.Err = none := fun x hx => hpre x (List.mem_cons_of_mem mr hx)
    have hwrest : ∀ j, j < rest.length → conn.writeErr (k + 1 + j) = none := by
      intro j hj
      have := hw (j + 1) (by simpa using Nat.succ_lt_succ hj)
      simpa [Nat.add_comm, Nat.add_assoc, Nat.add_left_comm] using this
    have harith : k + 1 + rest.length = k + (mr :: rest).length := by
      simp [Nat.add_comm, Nat.add_assoc, Nat.add_left_comm]
    rw [List.cons_append]
    rw [show WriterLoop conn k
          (mr :: (rest ++ { Err := none, Measurement := m } :: post))
        = let r := WriterLoop conn (k + 1) (rest ++ { Err := none, Measurement := m } :: post)
          (r.1, (TextMessage, mr.Measurement) :: r.2.1, r.2.2) by
      simp [WriterLoop, hmr, hw0]]
    rw [ih (k + 1) post hrest hwrest]
    rw [harith]
    cases h : conn.writeErr (k + (mr :: rest).length) with
    | none => simp [harith]
    | some e => simp

/-- C3: when `sink.Writer` reaches an envelope carrying a payload (all
earlier envelopes carry payloads and their writes succeed), it writes
that payload as a single `websocket.TextMessage` frame; and if that
write fails, the write error is the sole output item, no further payload
is written, and the remaining input is left to the drain in full. -/
theorem writer_payload_written_and_write_failure_drains
    (conn : Conn) (pre post : List MeasureResult) (m : Bytes)
    (hpre : ∀ mr ∈ pre, mr.Err = none)
    (hw : ∀ j, j < pre.length → conn.writeErr j = none) :
    (Writer conn (pre ++ { Err := none, Measurement := m } :: post)).writes[pre.length]?
      = some (TextMessage, m) ∧
    (∀ e, conn.writeErr pre.length = some e →
      (Writer conn (pre ++ { Err := none, Measurement := m } :: post)).output = [e] ∧
      (Writer conn (pre ++ { Err := none, Measurement := m } :: post)).writes
        = pre.map (fun mr => (TextMessage, mr.Measurement)) ++ [(TextMessage, m)] ∧
      (Writer conn (pre ++ { Err := none, Measurement := m } :: post)).drained = post) := by
  have h := WriterLoop_on_payload conn m pre 0 post hpre (by simpa using hw)
  simp only [Nat.zero_add] at h
  constructor
  · cases hc : conn.writeErr pre.length with
    | some e =>
      rw [hc] at h
      simp [Writer, h]
    | none =>
      rw [hc] at h
      simp only [Writer, h]
      rw [List.getElem?_append_right (by simp)]
      simp
  · intro e he
    rw [he] at h
    simp [Writer, h]

/-- C3 witness: with a connection whose first write fails with error 9,
input [payload] yields one attempted text-frame write, sole output [9],
and an empty drain; concretely with one trailing payload it is drained. -/
theorem writer_payload_written_and_write_failure_drains_witness :
    ((fun _ => some 9 : Nat → Option GoErr) 0 = some 9) ∧
    (Writer { writeErr := fun _ => some 9 }
        ([] ++ { Err := none, Measurement := [5] } :: [MeasureResult.mk none [6]])).writes[0]?
      = some (TextMessage, [5]) ∧
    (Writer { writeErr := fun _ => some 9 }
        ([] ++ { Err := none, Measurement := [5] } :: [MeasureResult.mk none [6]])).output
      = [9] ∧
    (Writer { writeErr := fun _ => some 9 }
        ([] ++ { Err := none, Measurement := [5] } :: [MeasureResult.mk none [6]])).drained
      = [MeasureResult.mk none [6]] := by
  have h := writer_payload_written_and_write_failure_drains
    { writeErr := fun _ => some 9 } [] [MeasureResult.mk none [6]] [5]
    (by simp) (by intro j hj; simp at hj)
  refine ⟨rfl, h.1, ?_, ?_⟩
  · exact (h.2 9 rfl).1
  · exact (h.2 9 rfl).2.2

/-- Helper: on every input the loop emits at most one output item and
leaves a suffix of the input unread. -/
theorem WriterLoop_output_le_one_and_suffix (conn : Conn) :
    ∀ (input : List MeasureResult) (k : Nat),
    (WriterLoop conn k input).1.length ≤ 1 ∧
    ∃ n, (WriterLoop conn k input).2.2 = input.drop n := by
  intro input
  induction input with
  | nil =>
    intro k
    exact ⟨by simp [WriterLoop], 0, by simp [WriterLoop]⟩
  | cons mr rest ih =>
    intro k
    match hmr : mr.Err with
    | some e =>
      refine ⟨by simp [WriterLoop, hmr], 1, by simp [WriterLoop, hmr]⟩
    | none =>
      match hc : conn.writeErr k with
      | some e =>
        refine ⟨by simp [WriterLoop, hmr, hc], 1, by simp [WriterLoop, hmr, hc]⟩
      | none =>
        obtain ⟨h1, n, hn⟩ := ih (k + 1)
        refine ⟨by simpa [WriterLoop, hmr, hc] using h1, n + 1, ?_⟩
        simpa [WriterLoop, hmr, hc] using hn

/-- C9: on every execution path of `sink.Writer` the output channel
carries at most one item before being closed, and what the main loop
left unread is exactly a suffix of the input, all of which the drain
loop consumes — so the entire input sequence is consumed to its end and
no producer is left blocked. -/
theorem writer_always_drains_and_closes (conn : Conn) (input : List MeasureResult) :
    (Writer conn input).output.length ≤ 1 ∧
    (∃ n, (Writer conn input).drained = input.drop n) ∧
    (Writer conn input).outputClosed = true := by
  obtain ⟨h1, n, hn⟩ := WriterLoop_output_le_one_and_suffix conn input 0
  exact ⟨h1, ⟨n, hn⟩, rfl⟩

end sink

namespace client

/-- A Go error value; `Option GoErr` models a possibly-nil `error`. -/
abbrev GoErr := Nat

/-- The `Client` struct of part_001: hostname, port and the Insecure
flag controlling TLS verification. -/
structure Client where
  Hostname : String
  Port : String
  Insecure : Bool
deriving DecidableEq, Repr

/-- The one relevant field of Go `tls.Config`; the struct the source
builds is `&tls.Config{InsecureSkipVerify: true}`. -/
structure TLSConfig where
  InsecureSkipVerify : Bool
deriving DecidableEq, Repr

/-- The relevant fields of `websocket.Dialer`: its TLS client config
(`none` models the nil pointer of the Go zero value) and the handshake
timeout in nanoseconds. -/
structure Dialer where
  TLSClientConfig : Option TLSConfig
  HandshakeTimeout : Nat
deriving DecidableEq, Repr

/-- The fields of `url.URL` that `Client.dial` sets. -/
structure URL where
  Scheme : String
  Path : String
  Host : String
deriving DecidableEq, Repr

/-- What one call of the injected low-level `dial` function receives:
the configured dialer, the URL, and the HTTP headers. -/
structure DialRequest where
  dialer : Dialer
  url : URL
  headers : List (String × String)
deriving DecidableEq, Repr

/-- The websocket connection as configured by `Client.dial`: the only
configuration the source applies is `SetReadLimit`. -/
structure WConn where
  readLimit : Nat
deriving DecidableEq, Repr

/-- The network: the outcome of the low-level `dialer.Dial` call for a
given request (`.ok` means the handshake succeeded). -/
structure Net where
  result : DialRequest → Except GoErr Unit

/-- Go `3 * time.Second` in nanoseconds. -/
def handshakeTimeoutNs : Nat := 3 * 1000000000

/-- The request `Client.dial` builds (part_001 lines 34-47): URL with
scheme wss, the given path, host hostname:port; a dialer whose TLS
config is set to skip verification exactly when `Insecure`; and the
`Sec-WebSocket-Protocol` header naming the ndt7 sub-protocol. -/
def Client.dialRequest (cl : Client) (urlpath : String) : DialRequest :=
  { dialer :=
      { TLSClientConfig :=
          if cl.Insecure then some { InsecureSkipVerify := true } else none,
        HandshakeTimeout := handshakeTimeoutNs },
    url := { Scheme := "wss", Path := urlpath, Host := cl.Hostname ++ ":" ++ cl.Port },
    headers := [("Sec-WebSocket-Protocol", "net.measurementlab.ndt.v7")] }

/-- `Client.dial` (part_001 lines 34-55): build the request, call the
low-level dial, and on success configure the connection with
`SetReadLimit(1 << 17)`. -/
def Client.dial (cl : Client) (net : Net) (urlpath : String) : Except GoErr WConn :=
  match net.result (cl.dialRequest urlpath) with
  | .error e => .error e
  | .ok _ => .ok { readLimit := 1 <<< 17 }

/-- Modelled from the spec: the `protocol` package of this repository
(Reader, Measurer, Counterflow, Writer) is not under src/; per spec
sections 4.4-4.6 each direction's stage composition is modeled by the
number of measurement events it yields to the caller and its single
terminal error outcome on a given connection. -/
structure ProtocolModel where
  counterflowErr : WConn → Option GoErr
  counterflowEvents : WConn → Nat
  writerErr : WConn → Option GoErr
  writerEvents : WConn → Nat

/-- Everything observable about one `Client.Download`/`Client.Upload`
call: the returned error, the dial requests issued, how many protocol
stage compositions were run, and how many measurement events were
produced. -/
structure RunOutcome where
  ret : Option GoErr
  dialRequests : List DialRequest
  protocolStageRuns : Nat
  eventsProduced : Nat
deriving DecidableEq, Repr

/-- `Client.Download` (part_001 lines 66-73): dial the download path;
on dial error return it at once, otherwise run the protocol stage
composition `Counterflow(conn, Measurer(Reader(conn)))`. -/
def Client.Download (cl : Client) (net : Net) (proto : ProtocolModel) : RunOutcome :=
  match cl.dial net "/ndt/v7/download" with
  | .error e =>
    { ret := some e, dialRequests := [cl.dialRequest "/ndt/v7/download"],
      protocolStageRuns := 0, eventsProduced := 0 }
  | .ok conn =>
    { ret := proto.counterflowErr conn,
      dialRequests := [cl.dialRequest "/ndt/v7/download"],
      protocolStageRuns := 1, eventsProduced := proto.counterflowEvents conn }

/-- `Client.Upload` (part_001 lines 76-88): dial the upload path; on
dial error return it at once, otherwise drain inbound frames and return
the first item of `protocol.Writer(conn)`. -/
def Client.Upload (cl : Client) (net : Net) (proto : ProtocolModel) : RunOutcome :=
  match cl.dial net "/ndt/v7/upload" with
  | .error e =>
    { ret := some e, dialRequests := [cl.dialRequest "/ndt/v7/upload"],
      protocolStageRuns := 0, eventsProduced := 0 }
  | .ok conn =>
    { ret := proto.writerErr conn,
      dialRequests := [cl.dialRequest "/ndt/v7/upload"],
      protocolStageRuns := 1, eventsProduced := proto.writerEvents conn }

/-- C4: if dialing/handshaking fails, `Client.Download` (resp.
`Client.Upload`) returns exactly that dial error, runs no protocol
stage, and produces zero measurement events. -/
theorem download_upload_dial_failure_is_fatal
    (cl : Client) (net : Net) (proto : ProtocolModel) (e e' : GoErr)
    (hd : net.result (cl.dialRequest "/ndt/v7/download") = .error e)
    (hu : net.result (cl.dialRequest "/ndt/v7/upload") = .error e') :
    (cl.Download net proto).ret = some e ∧
    (cl.Download net proto).protocolStageRuns = 0 ∧
    (cl.Download net proto).eventsProduced = 0 ∧
    (cl.Upload net proto).ret = some e' ∧
    (cl.Upload net proto).protocolStageRuns = 0 ∧
    (cl.Upload net proto).eventsProduced = 0 := by
  simp [Client.Download, Client.Upload, Client.dial, hd, hu]

/-- C4 witness: a network refusing every handshake with error 3 makes
Download and Upload return error 3 with no stage run and no events. -/
theorem download_upload_dial_failure_is_fatal_witness :
    (Net.mk (fun _ => .error 3)).result
        ((Client.mk "h" "443" false).dialRequest "/ndt/v7/download") = .error 3 ∧
    ((Client.mk "h" "443" false).Download (Net.mk (fun _ => .error 3))
        (ProtocolModel.mk (fun _ => none) (fun _ => 0) (fun _ => none) (fun _ => 0))).ret
      = some 3 ∧
    ((Client.mk "h" "443" false).Download (Net.mk (fun _ => .error 3))
        (ProtocolModel.mk (fun _ => none) (fun _ => 0) (fun _ => none) (fun _ => 0))).protocolStageRuns
      = 0 ∧
    ((Client.mk "h" "443" false).Upload (Net.mk (fun _ => .error 3))
        (ProtocolModel.mk (fun _ => none) (fun _ => 0) (fun _ => none) (fun _ => 0))).eventsProduced
      = 0 := by
  have h := download_upload_dial_failure_is_fatal
    (Client.mk "h" "443" false) (Net.mk (fun _ => .error 3))
    (ProtocolModel.mk (fun _ => none) (fun _ => 0) (fun _ => none) (fun _ => 0))
    3 3 rfl rfl
  exact ⟨rfl, h.1, h.2.1, h.2.2.2.2.2⟩

/-- The error the websocket library reports when a frame exceeds the
configured read limit (gorilla/websocket `ErrReadLimit`). -/
def errReadLimitExceeded : GoErr := 1001

/-- Read behavior of the websocket library under `SetReadLimit`, per its
documented contract (the library is an external collaborator): a frame
whose payload exceeds the limit yields a protocol error instead of
(partially decoded) data. -/
def WConn.readFrame (conn : WConn) (frame : List Nat) : Except GoErr (List Nat) :=
  if conn.readLimit < frame.length then .error errReadLimitExceeded else .ok frame

/-- C5: every successfully dialed connection has its maximum inbound
frame size configured to exactly 2^17 = 131072 bytes (128 KiB), and any
inbound frame exceeding that bound is surfaced as a read error rather
than decoded. -/
theorem dial_sets_read_limit_128KiB
    (cl : Client) (net : Net) (urlpath : String) (conn : WConn)
    (h : cl.dial net urlpath = .ok conn) :
    conn.readLimit = 131072 ∧
    (∀ frame : List Nat, 131072 < frame.length →
      conn.readFrame frame = .error errReadLimitExceeded) ∧
    (∀ frame : List Nat, frame.length ≤ 131072 → conn.readFrame frame = .ok frame) := by
  have hconn : conn = { readLimit := 1 <<< 17 } := by
    unfold Client.dial at h
    cases hres : net.result (cl.dialRequest urlpath) with
    | error e => rw [hres] at h; exact absurd h (by simp)
    | ok u => rw [hres] at h; simpa using h.symm
  subst hconn
  refine ⟨by decide, ?_, ?_⟩
  · intro frame hf
    simp only [WConn.readFrame]
    rw [if_pos (by simpa using hf)]
  · intro frame hf
    simp only [WConn.readFrame]
    rw [if_neg (by simp; omega)]

/-- C5 witness: on an always-accepting network the dialed connection has
read limit 131072, rejects a frame of 131073 bytes and accepts one of 3
bytes. -/
theorem dial_sets_read_limit_128KiB_witness :
    ((Client.mk "h" "443" false).dial (Net.mk (fun _ => .ok ())) "/ndt/v7/download"
        = .ok (WConn.mk 131072)) ∧
    (WConn.mk 131072).readLimit = 131072 ∧
    (WConn.mk 131072).readFrame (List.replicate 131073 0) = .error errReadLimitExceeded ∧
    (WConn.mk 131072).readFrame [1, 2, 3] = .ok [1, 2, 3] := by
  have h := dial_sets_read_limit_128KiB
    (Client.mk "h" "443" false) (Net.mk (fun _ => .ok ())) "/ndt/v7/download"
    (WConn.mk 131072) (by rfl)
  refine ⟨by rfl, h.1, ?_, ?_⟩
  · exact h.2.1 (List.replicate 131073 0)
      (by rw [List.length_replicate]; exact Nat.lt_succ_self 131072)
  · exact h.2.2 [1, 2, 3] (by decide)

/-- C7: every dial request carries the `Sec-WebSocket-Protocol:
net.measurementlab.ndt.v7` header, and the URL path is fixed by
direction: `Client.Download` dials exactly `/ndt/v7/download` and
`Client.Upload` dials exactly `/ndt/v7/upload`. -/
theorem handshake_subprotocol_and_paths
    (cl : Client) (net : Net) (proto : ProtocolModel) :
    (∀ urlpath, (cl.dialRequest urlpath).headers
        = [("Sec-WebSocket-Protocol", "net.measurementlab.ndt.v7")]) ∧
    (cl.Download net proto).dialRequests = [cl.dialRequest "/ndt/v7/download"] ∧
    (cl.Upload net proto).dialRequests = [cl.dialRequest "/ndt/v7/upload"] ∧
    (cl.dialRequest "/ndt/v7/download").url.Path = "/ndt/v7/download" ∧
    (cl.dialRequest "/ndt/v7/upload").url.Path = "/ndt/v7/upload" := by
  refine ⟨fun urlpath => rfl, ?_, ?_, rfl, rfl⟩
  · unfold Client.Download
    cases cl.dial net "/ndt/v7/download" with
    | error e => rfl
    | ok conn => rfl
  · unfold Client.Upload
    cases cl.dial net "/ndt/v7/upload" with
    | error e => rfl
    | ok conn => rfl

/-- C10: for every client configuration and every path the constructed
URL has scheme wss, and the Insecure flag only sets InsecureSkipVerify
in the TLS configuration — it never changes the scheme. -/
theorem dial_always_wss_insecure_only_skips_verify (cl : Client) (urlpath : String) :
    (cl.dialRequest urlpath).url.Scheme = "wss" ∧
    (cl.dialRequest urlpath).dialer.TLSClientConfig
      = (if cl.Insecure then some { InsecureSkipVerify := true } else none) ∧
    (cl.dialRequest urlpath).url.Host = cl.Hostname ++ ":" ++ cl.Port := by
  exact ⟨rfl, rfl, rfl⟩

end client

namespace mainpkg

/-- A Go error value serialized as a string, as the emitter prints it. -/
abbrev GoErr := String

/-- An opaque `spec.Measurement` value flowing on the subtest channel. -/
abbrev Measurement := Nat

/-- One emitter call made by `runSubtest` (main.go lines 93-117):
onStarting, onError, onConnected, a measurement event, onComplete. -/
inductive EmitEv where
  | starting (subtest : String)
  | errorEv (subtest : String) (e : GoErr)
  | connected (subtest : String) (fqdn : String)
  | measurement (subtest : String) (m : Measurement)
  | complete (subtest : String)
deriving DecidableEq, Repr

/-- What one subtest invocation does, seen from `runSubtest`: the start
call fails with an error; or the run panics somewhere after the start
call (the deferred `recover` catches it); or the start call succeeds and
the event channel yields the given measurements before closing. -/
inductive SubtestBehavior where
  | startErr (e : GoErr)
  | panicked
  | success (events : List Measurement)
deriving DecidableEq, Repr

/-- `runSubtest` (main.go lines 93-117): emit onStarting; on start error
emit onError and return code 2; a recovered panic yields code 1; on
success emit onConnected, forward each event, emit onComplete, return
code 0.  Returns the exit code and the emitter calls made. -/
def runSubtest (subtest : String) (fqdn : String) :
    SubtestBehavior → Nat × List EmitEv
  | .startErr e => (2, [.starting subtest, .errorEv subtest e])
  | .panicked => (1, [.starting subtest])
  | .success events =>
    (0, [.starting subtest, .connected subtest fqdn]
          ++ events.map (fun m => .measurement subtest m)
          ++ [.complete subtest])

/-- `realmain` (main.go lines 133-146): run the download subtest, then
the upload subtest, and return the sum of their exit codes; the emitter
trace is the concatenation of both subtests' traces. -/
def realmain (fqdn : String) (dl ul : SubtestBehavior) : Nat × List EmitEv :=
  let d := runSubtest "download" fqdn dl
  let u := runSubtest "upload" fqdn ul
  (d.1 + u.1, d.2 ++ u.2)

/-- C8: whatever the download subtest does — start error, recovered
panic, or success — `realmain` always invokes the upload subtest
afterwards: the upload trace follows the download trace unchanged, the
upload start event is always emitted, and the exit code is the sum of
both codes. -/
theorem realmain_always_attempts_upload (fqdn : String) (dl ul : SubtestBehavior) :
    (realmain fqdn dl ul).2
      = (runSubtest "download" fqdn dl).2 ++ (runSubtest "upload" fqdn ul).2 ∧
    EmitEv.starting "upload" ∈ (realmain fqdn dl ul).2 ∧
    (realmain fqdn dl ul).1
      = (runSubtest "download" fqdn dl).1 + (runSubtest "upload" fqdn ul).1 := by
  refine ⟨rfl, ?_, rfl⟩
  have hu : EmitEv.starting "upload" ∈ (runSubtest "upload" fqdn ul).2 := by
    cases ul with
    | startErr e => simp [runSubtest]
    | panicked => simp [runSubtest]
    | success events => simp [runSubtest]
  simpa [realmain] using Or.inr hu

end mainpkg

namespace libndt7

/-- The fixed reporting interval in milliseconds (the constant `every`
of libndt7.js line 103). -/
def every : Nat := 250

/-- The mutable state of one `measure` run: `count` (bytes seen) and
`tlast` (time of the last client measurement emission, initially t0).
Times are wall-clock milliseconds. -/
structure MeasureState where
  count : Nat
  tlast : Nat
deriving DecidableEq, Repr

/-- The data of one WebSocket message event: a binary Blob of a given
size, or a text frame whose length is counted. -/
inductive WsData where
  | blob (size : Nat)
  | text (s : String)
deriving DecidableEq, Repr

/-- The byte count the handler adds for one message: `event.data.size`
for a Blob, `event.data.length` for text. -/
def WsData.byteCount : WsData → Nat
  | .blob size => size
  | .text s => s.length

/-- One invocation of the onmessage handler: the wall-clock time `t1` at
which it runs and the message data. -/
structure JsEvent where
  t1 : Nat
  data : WsData
deriving DecidableEq, Repr

/-- One emitted clientMeasurement, with the emission time kept for
bookkeeping: `elapsedMs = t1 - t0` (the source divides by 1000 to
seconds, a positive constant factor that preserves order) and
`num_bytes = count`. -/
structure ClientMeasurement where
  time : Nat
  elapsedMs : Nat
  num_bytes : Nat
deriving DecidableEq, Repr

/-- The `app_info` object literal of libndt7.js lines 107-109. -/
structure AppInfo where
  num_bytes : Nat
deriving DecidableEq, Repr

/-- The object literal passed to `emit` for the clientMeasurement event
(libndt7.js lines 105-110): its only properties are `elapsed` (seconds)
and `app_info`. -/
structure EmittedObject where
  elapsed : Rat
  app_info : AppInfo
deriving DecidableEq, Repr

/-- The property names of the clientMeasurement object literal, exactly
as constructed at libndt7.js lines 105-110. -/
def EmittedObject.keys (_ : EmittedObject) : List String :=
  ["elapsed", "app_info"]

/-- The JS object a `ClientMeasurement` is emitted as. -/
def ClientMeasurement.toObject (m : ClientMeasurement) : EmittedObject :=
  { elapsed := (m.elapsedMs : Rat) / 1000, app_info := { num_bytes := m.num_bytes } }

/-- One step of the onmessage handler (libndt7.js lines 95-113): add the
message's bytes to `count`; if more than `every` ms passed since
`tlast`, emit a clientMeasurement with the current elapsed time and
cumulative count and set `tlast` to now. -/
def measureStep (t0 : Nat) (s : MeasureState) (ev : JsEvent) :
    MeasureState × Option ClientMeasurement :=
  let count := s.count + ev.data.byteCount
  if every < ev.t1 - s.tlast then
    ({ count := count, tlast := ev.t1 },
     some { time := ev.t1, elapsedMs := ev.t1 - t0, num_bytes := count })
  else
    ({ count := count, tlast := s.tlast }, none)

/-- Run the handler over a sequence of message events, collecting the
emitted clientMeasurements in order. -/
def measureRun (t0 : Nat) (s : MeasureState) : List JsEvent → List ClientMeasurement
  | [] => []
  | ev :: rest =>
    match measureStep t0 s ev with
    | (s1, some m) => m :: measureRun t0 s1 rest
    | (s1, none) => measureRun t0 s1 rest

/-- `measure` (libndt7.js lines 91-114): the handler starts with
`count = 0` and `tlast = t0`. -/
def measure (t0 : Nat) (evs : List JsEvent) : List ClientMeasurement :=
  measureRun t0 { count := 0, tlast := t0 } evs

/-- Ceiling division on naturals. -/
def ceilDiv (a b : Nat) : Nat := (a + b - 1) / b

/-- Helper: successive emissions are more than `every` ms apart, and
every emission happens strictly later than `tlast + every`. -/
theorem measureRun_gap (t0 : Nat) :
    ∀ (evs : List JsEvent) (s : MeasureState),
    (measureRun t0 s evs).Pairwise (fun a b => a.time + every < b.time) ∧
    ∀ m ∈ measureRun t0 s evs, s.tlast + every < m.time := by
  intro evs
  induction evs with
  | nil => intro s; simp [measureRun]
  | cons ev rest ih =>
    intro s
    by_cases h : every < ev.t1 - s.tlast
    · have hlt : s.tlast + every < ev.t1 := by omega
      have hrun : measureRun t0 s (ev :: rest)
          = { time := ev.t1, elapsedMs := ev.t1 - t0,
              num_bytes := s.count + ev.data.byteCount }
            :: measureRun t0 { count := s.count + ev.data.byteCount, tlast := ev.t1 } rest := by
        simp [measureRun, measureStep, h]
      obtain ⟨hpw, hall⟩ := ih { count := s.count + ev.data.byteCount, tlast := ev.t1 }
      rw [hrun]
      refine ⟨List.Pairwise.cons (fun b hb => ?_) hpw, ?_⟩
      · exact hall b hb
      · intro m hm
        rcases List.mem_cons.mp hm with hm | hm
        · rw [hm]; exact hlt
        · have := hall m hm
          simp only at this
          omega
    · have hrun : measureRun t0 s (ev :: rest)
          = measureRun t0 { count := s.count + ev.data.byteCount, tlast := s.tlast } rest := by
        simp [measureRun, measureStep, h]
      obtain ⟨hpw, hall⟩ := ih { count := s.count + ev.data.byteCount, tlast := s.tlast }
      rw [hrun]
      exact ⟨hpw, fun m hm => hall m hm⟩

/-- Helper: emitted cumulative byte counts are non-decreasing and
bounded below by the current count. -/
theorem measureRun_counts (t0 : Nat) :
    ∀ (evs : List JsEvent) (s : MeasureState),
    (measureRun t0 s evs).Pairwise (fun a b => a.num_bytes ≤ b.num_bytes) ∧
    ∀ m ∈ measureRun t0 s evs, s.count ≤ m.num_bytes := by
  intro evs
  induction evs with
  | nil => intro s; simp [measureRun]
  | cons ev rest ih =>
    intro s
    by_cases h : every < ev.t1 - s.tlast
    · have hrun : measureRun t0 s (ev :: rest)
          = { time := ev.t1, elapsedMs := ev.t1 - t0,
              num_bytes := s.count + ev.data.byteCount }
            :: measureRun t0 { count := s.count + ev.data.byteCount, tlast := ev.t1 } rest := by
        simp [measureRun, measureStep, h]
      obtain ⟨hpw, hall⟩ := ih { count := s.count + ev.data.byteCount, tlast := ev.t1 }
      rw [hrun]
      refine ⟨List.Pairwise.cons (fun b hb => hall b hb) hpw, ?_⟩
      intro m hm
      rcases List.mem_cons.mp hm with hm | hm
      · rw [hm]; simp
      · have := hall m hm
        simp only at this
        omega
    · have hrun : measureRun t0 s (ev :: rest)
          = measureRun t0 { count := s.count + ev.data.byteCount, tlast := s.tlast } rest := by
        simp [measureRun, measureStep, h]
      obtain ⟨hpw, hall⟩ := ih { count := s.count + ev.data.byteCount, tlast := s.tlast }
      rw [hrun]
      refine ⟨hpw, fun m hm => ?_⟩
      have := hall m hm
      simp only at this
      omega

/-- Helper: every emission records elapsed time as its emission time
minus the start time. -/
theorem measureRun_elapsed (t0 : Nat) :
    ∀ (evs : List JsEvent) (s : MeasureState),
    ∀ m ∈ measureRun t0 s evs, m.elapsedMs = m.time - t0 := by
  intro evs
  induction evs with
  | nil => intro s; simp [measureRun]
  | cons ev rest ih =>
    intro s m hm
    by_cases h : every < ev.t1 - s.tlast
    · rw [show measureRun t0 s (ev :: rest)
          = { time := ev.t1, elapsedMs := ev.t1 - t0,
              num_bytes := s.count + ev.data.byteCount }
            :: measureRun t0 { count := s.count + ev.data.byteCount, tlast := ev.t1 } rest
          by simp [measureRun, measureStep, h]] at hm
      rcases List.mem_cons.mp hm with hm | hm
      · rw [hm]
      · exact ih _ m hm
    · rw [show measureRun t0 s (ev :: rest)
          = measureRun t0 { count := s.count + ev.data.byteCount, tlast := s.tlast } rest
          by simp [measureRun, measureStep, h]] at hm
      exact ih _ m hm

/-- Helper: every emission time is the time of one of the events. -/
theorem measureRun_time_bound (t0 hi : Nat) :
    ∀ (evs : List JsEvent) (s : MeasureState),
    (∀ ev ∈ evs, ev.t1 ≤ hi) →
    ∀ m ∈ measureRun t0 s evs, m.time ≤ hi := by
  intro evs
  induction evs with
  | nil => intro s _; simp [measureRun]
  | cons ev rest ih =>
    intro s hevs m hm
    have hev : ev.t1 ≤ hi := hevs ev (List.mem_cons_self ev rest)
    have hrest : ∀ x ∈ rest, x.t1 ≤ hi := fun x hx => hevs x (List.mem_cons_of_mem ev hx)
    by_cases h : every < ev.t1 - s.tlast
    · rw [show measureRun t0 s (ev :: rest)
          = { time := ev.t1, elapsedMs := ev.t1 - t0,
              num_bytes := s.count + ev.data.byteCount }
            :: measureRun t0 { count := s.count + ev.data.byteCount, tlast := ev.t1 } rest
          by simp [measureRun, measureStep, h]] at hm
      rcases List.mem_cons.mp hm with hm | hm
      · rw [hm]; exact hev
      · exact ih _ hrest m hm
    · rw [show measureRun t0 s (ev :: rest)
          = measureRun t0 { count := s.count + ev.data.byteCount, tlast := s.tlast } rest
          by simp [measureRun, measureStep, h]] at hm
      exact ih _ hrest m hm

/-- Helper: a nonempty list of emissions spaced more than `every` ms
apart, all after `lo + every` and all at or before `hi`, has length
bounded by the window. -/
theorem gap_list_length_bound :
    ∀ (l : List ClientMeasurement) (lo hi : Nat),
    l.Pairwise (fun a b => a.time + every < b.time) →
    (∀ m ∈ l, lo + every < m.time) →
    (∀ m ∈ l, m.time ≤ hi) →
    l ≠ [] → lo + (every + 1) * l.length ≤ hi := by
  intro l
  induction l with
  | nil => intro lo hi _ _ _ hne; exact absurd rfl hne
  | cons a rest ih =>
    intro lo hi hpw hlo hhi _
    have ha_lo : lo + every < a.time := hlo a (List.mem_cons_self a rest)
    have ha_hi : a.time ≤ hi := hhi a (List.mem_cons_self a rest)
    rcases List.pairwise_cons.mp hpw with ⟨hhead, hrest⟩
    cases rest with
    | nil =>
      simp only [List.length_cons, List.length_nil]
      omega
    | cons b rest2 =>
      have hbound := ih a.time hi hrest
        (fun m hm => hhead m hm)
        (fun m hm => hhi m (List.mem_cons_of_mem a hm))
        (by simp)
      simp only [every, List.length_cons] at hbound ha_lo ⊢
      omega

/-- C2: the client-side measurement emission of the web Local Measurer
is throttled to the 250 ms interval: if all message events arrive by
time t0 + T, at most ceil(T / 250) + 1 client measurements are emitted,
and across successive emissions both the elapsed field and the
cumulative byte count are non-decreasing. -/
theorem measure_throttled_and_monotone (t0 T : Nat) (evs : List JsEvent)
    (hT : ∀ ev ∈ evs, ev.t1 ≤ t0 + T) :
    (measure t0 evs).length ≤ ceilDiv T every + 1 ∧
    (measure t0 evs).Pairwise (fun a b => a.elapsedMs ≤ b.elapsedMs) ∧
    (measure t0 evs).Pairwise (fun a b => a.num_bytes ≤ b.num_bytes) := by
  obtain ⟨hpw, hall⟩ := measureRun_gap t0 evs { count := 0, tlast := t0 }
  have helapsed := measureRun_elapsed t0 evs { count := 0, tlast := t0 }
  have hcounts := (measureRun_counts t0 evs { count := 0, tlast := t0 }).1
  refine ⟨?_, ?_, hcounts⟩
  · by_cases hne : measure t0 evs = []
    · rw [hne]; simp
    · have hhi := measureRun_time_bound t0 (t0 + T) evs { count := 0, tlast := t0 } hT
      have hb := gap_list_length_bound (measure t0 evs) t0 (t0 + T) hpw
        (fun m hm => hall m hm) (fun m hm => hhi m hm) hne
      have hmul : (measure t0 evs).length * every ≤ T + (every - 1) := by
        simp only [every] at hb ⊢
        omega
      have hdiv : (measure t0 evs).length ≤ (T + (every - 1)) / every :=
        (Nat.le_div_iff_mul_le (by simp [every])).mpr hmul
      simp only [ceilDiv, every] at hdiv ⊢
      omega
  · refine hpw.imp_of_mem ?_
    intro a b ha hb hab
    rw [helapsed a ha, helapsed b hb]
    omega

/-- C2 witness: three events at 300 ms, 400 ms and 700 ms within a
1000 ms window yield exactly two emissions (the 400 ms update is
throttled), within the bound ceil(1000/250) + 1 = 5, with non-decreasing
elapsed and byte counts. -/
theorem measure_throttled_and_monotone_witness :
    (∀ ev ∈ [JsEvent.mk 300 (WsData.blob 10), JsEvent.mk 400 (WsData.blob 5),
              JsEvent.mk 700 (WsData.blob 20)], ev.t1 ≤ 0 + 1000) ∧
    (measure 0 [JsEvent.mk 300 (WsData.blob 10), JsEvent.mk 400 (WsData.blob 5),
                JsEvent.mk 700 (WsData.blob 20)]).length ≤ ceilDiv 1000 every + 1 ∧
    (measure 0 [JsEvent.mk 300 (WsData.blob 10), JsEvent.mk 400 (WsData.blob 5),
                JsEvent.mk 700 (WsData.blob 20)]).Pairwise
      (fun a b => a.elapsedMs ≤ b.elapsedMs) ∧
    (measure 0 [JsEvent.mk 300 (WsData.blob 10), JsEvent.mk 400 (WsData.blob 5),
                JsEvent.mk 700 (WsData.blob 20)]).Pairwise
      (fun a b => a.num_bytes ≤ b.num_bytes) := by
  refine ⟨by decide, ?_⟩
  have h := measure_throttled_and_monotone 0 1000
    [JsEvent.mk 300 (WsData.blob 10), JsEvent.mk 400 (WsData.blob 5),
     JsEvent.mk 700 (WsData.blob 20)] (by decide)
  exact ⟨h.1, h.2.1, h.2.2⟩

/-- C6 counterexample: a concrete run emits a client measurement whose
object has only the properties elapsed and app_info — it has no subtest
field at all, contradicting the claim that every measurement carries a
subtest field valued download or upload. -/
theorem measurement_has_no_subtest_field :
    measure 0 [JsEvent.mk 300 (WsData.blob 100)]
      = [ClientMeasurement.mk 300 300 100] ∧
    "subtest" ∉ (ClientMeasurement.toObject (ClientMeasurement.mk 300 300 100)).keys := by
  refine ⟨by decide, by decide⟩

/-- C6 amended: every client measurement emitted by the web Local
Measurer has exactly the fields elapsed and app_info (carrying
num_bytes); no subtest field is present. -/
theorem measurement_fields_are_elapsed_and_app_info
    (t0 : Nat) (evs : List JsEvent) (m : ClientMeasurement)
    (_hm : m ∈ measure t0 evs) :
    m.toObject.keys = ["elapsed", "app_info"] ∧
    "subtest" ∉ m.toObject.keys ∧
    m.toObject.app_info.num_bytes = m.num_bytes ∧
    m.toObject.elapsed = (m.elapsedMs : Rat) / 1000 := by
  refine ⟨rfl, ?_, rfl, rfl⟩
  simp [ClientMeasurement.toObject, EmittedObject.keys]

/-- C6 amended witness: the measurement emitted by the concrete run
above has exactly those fields. -/
theorem measurement_fields_are_elapsed_and_app_info_witness :
    (ClientMeasurement.mk 300 300 100 ∈ measure 0 [JsEvent.mk 300 (WsData.blob 100)]) ∧
    (ClientMeasurement.toObject (ClientMeasurement.mk 300 300 100)).keys
      = ["elapsed", "app_info"] ∧
    "subtest" ∉ (ClientMeasurement.toObject (ClientMeasurement.mk 300 300 100)).keys := by
  refine ⟨by decide, ?_, ?_⟩
  · exact (measurement_fields_are_elapsed_and_app_info 0
      [JsEvent.mk 300 (WsData.blob 100)] (ClientMeasurement.mk 300 300 100) (by decide)).1
  · exact (measurement_fields_are_elapsed_and_app_info 0
      [JsEvent.mk 300 (WsData.blob 100)] (ClientMeasurement.mk 300 300 100) (by decide)).2.1

end libndt7
